import Mathlib

/-!
Verification development for the pq_tracker application.

The definitions below are a shallow embedding of the TypeScript sources:
the spreadsheet invoice-field extractor and form submission of
`PQEntryForm`, the filtering / counting / export logic of `RecordsView`,
the Supabase storage client (`savePQRecord` / `updatePQRecord`), and the
`isDelayed` date helper.  JavaScript strings are modelled as Lean
`String` / `List Char`; JS `undefined` / absent object fields are
modelled with `Option`; the `NaN` result of `parseInt` is modelled as
`Option.none`.
-/

namespace PQTracker

/-- ASCII uppercase test: the regex character class `[A-Z]`. -/
def upperA (c : Char) : Bool := decide ('A' ≤ c) && decide (c ≤ 'Z')

/-- ASCII digit test: the regex character class `\d` (as used here). -/
def digitA (c : Char) : Bool := decide ('0' ≤ c) && decide (c ≤ '9')

/-- Whitespace recognised by the model of `String.prototype.trim`. -/
def wsp (c : Char) : Bool := c == ' ' || c == '\t' || c == '\n' || c == '\r'

/-- Model of JS `String.prototype.trim` on char lists. -/
def trimL (l : List Char) : List Char :=
  ((l.dropWhile wsp).reverse.dropWhile wsp).reverse

/-- Model of JS `String.prototype.trim`. -/
def trimS (s : String) : String := String.mk (trimL s.toList)

/-- Model of JS `String.prototype.toLowerCase` (ASCII range). -/
def lowerS (s : String) : String := String.mk (s.toList.map Char.toLower)

/-- Model of JS `String.prototype.toUpperCase` (ASCII range). -/
def upperCaseS (s : String) : String := String.mk (s.toList.map Char.toUpper)

/-- Model of JS `String.prototype.length`. -/
def strLen (s : String) : Nat := s.toList.length

/-- Model of JS `String.prototype.indexOf`: index of the first occurrence
of `pat`, `none` when there is none (JS returns `-1`). -/
def idxOfL (pat : List Char) : List Char → Option Nat
  | [] => if pat.isEmpty then some 0 else none
  | c :: rest =>
    if pat.isPrefixOf (c :: rest) then some 0 else (idxOfL pat rest).map (· + 1)

/-- Model of JS `String.prototype.includes`. -/
def containsSub (s pat : String) : Bool := (idxOfL pat.toList s.toList).isSome

/-! ### The invoice-number regex

`extractInvoiceNumber` and its callers use the regex
`([A-Z]{2,4}\/\d+\/\d{4}-\d{2})`.  JS regex search tries successive start
positions left to right; at a fixed position the greedy quantifiers are
deterministic here because each run (`[A-Z]{2,4}`, `\d+`, `\d{4}`, `\d{2}`)
is followed by a character outside its class (`/`, `-`) or by the match
end, so a single pass per position is faithful. -/

/-- Consume a maximal run of characters satisfying `p`; succeed when its
length lies in `[lo, hi]`, returning the run and the rest. -/
def chompRun (p : Char → Bool) (lo hi : Nat) (l : List Char) :
    Option (List Char × List Char) :=
  if lo ≤ (l.takeWhile p).length ∧ (l.takeWhile p).length ≤ hi then
    some (l.takeWhile p, l.dropWhile p)
  else none

/-- Consume one expected literal character. -/
def chompChar (c : Char) : List Char → Option (List Char)
  | [] => none
  | d :: rest => if d = c then some rest else none

/-- Consume exactly `n` characters satisfying `p`. -/
def chompExact (p : Char → Bool) (n : Nat) (l : List Char) :
    Option (List Char × List Char) :=
  if (l.take n).length = n ∧ (l.take n).all p then some (l.take n, l.drop n)
  else none

/-- One attempt of the regex `([A-Z]{2,4}\/\d+\/\d{4}-\d{2})` anchored at
the start of `l`; returns the matched text. -/
def matchInvAt (l : List Char) : Option (List Char) :=
  match chompRun upperA 2 4 l with
  | none => none
  | some (ls, r1) =>
    match chompChar '/' r1 with
    | none => none
    | some r2 =>
      match chompRun digitA 1 r2.length r2 with
      | none => none
      | some (ds, r3) =>
        match chompChar '/' r3 with
        | none => none
        | some r4 =>
          match chompExact digitA 4 r4 with
          | none => none
          | some (y, r5) =>
            match chompChar '-' r5 with
            | none => none
            | some r6 =>
              match chompExact digitA 2 r6 with
              | none => none
              | some (t, _) =>
                some (ls ++ '/' :: (ds ++ '/' :: (y ++ '-' :: t)))

/-- JS regex search: first position (left to right) where the pattern
matches; returns the matched text, as `String.prototype.match` does. -/
def scanInv : List Char → Option (List Char)
  | [] => none
  | c :: rest =>
    match matchInvAt (c :: rest) with
    | some m => some m
    | none => scanInv rest

/-- `containsInv s` models `s.match(/[A-Z]{2,4}\/\d+\/\d{4}-\d{2}/)`
being truthy: the pattern occurs somewhere in `s`. -/
def containsInv (s : String) : Bool := (scanInv s.toList).isSome

/-- The whole of `s` is a single instance of the invoice pattern. -/
def fullInvMatch (s : String) : Bool := matchInvAt s.toList == some s.toList

/-! ### Structure of a match -/

/-- Well-formedness of the four component runs of an invoice match. -/
def InvShape (ls ds y t : List Char) : Prop :=
  (∀ c ∈ ls, upperA c = true) ∧ 2 ≤ ls.length ∧ ls.length ≤ 4 ∧
  (∀ c ∈ ds, digitA c = true) ∧ 1 ≤ ds.length ∧
  y.length = 4 ∧ (∀ c ∈ y, digitA c = true) ∧
  t.length = 2 ∧ (∀ c ∈ t, digitA c = true)

theorem takeWhile_eq_of_stop {p : Char → Bool} {a : List Char}
    (ha : ∀ c ∈ a, p c = true) {c0 : Char} (hc : p c0 = false)
    (b : List Char) : (a ++ c0 :: b).takeWhile p = a := by
  induction a with
  | nil => simp [List.takeWhile_cons, hc]
  | cons d a ih =>
    have hd : p d = true := ha d (by simp)
    simp only [List.cons_append, List.takeWhile_cons, hd, if_true]
    rw [ih (fun c h => ha c (by simp [h]))]

theorem dropWhile_eq_of_stop {p : Char → Bool} {a : List Char}
    (ha : ∀ c ∈ a, p c = true) {c0 : Char} (hc : p c0 = false)
    (b : List Char) : (a ++ c0 :: b).dropWhile p = c0 :: b := by
  induction a with
  | nil => simp [List.dropWhile_cons, hc]
  | cons d a ih =>
    have hd : p d = true := ha d (by simp)
    simp only [List.cons_append, List.dropWhile_cons, hd, if_true]
    exact ih (fun c h => ha c (by simp [h]))

theorem chompRun_eq_some {p : Char → Bool} {lo hi : Nat} {l a b : List Char}
    (h : chompRun p lo hi l = some (a, b)) :
    l = a ++ b ∧ (∀ c ∈ a, p c = true) ∧ lo ≤ a.length ∧ a.length ≤ hi := by
  unfold chompRun at h
  split at h
  · rename_i hcond
    obtain ⟨h1, h2⟩ := Prod.mk.injEq .. ▸ (Option.some.injEq .. ▸ h)
    subst h1; subst h2
    exact ⟨(List.takeWhile_append_dropWhile p l).symm,
      fun c hc => List.mem_takeWhile_imp hc, hcond.1, hcond.2⟩
  · exact absurd h (by simp)

theorem chompRun_reconstruct {p : Char → Bool} {a : List Char}
    (ha : ∀ c ∈ a, p c = true) {c0 : Char} (hc : p c0 = false)
    (b : List Char) {lo hi : Nat} (hlo : lo ≤ a.length) (hhi : a.length ≤ hi) :
    chompRun p lo hi (a ++ c0 :: b) = some (a, c0 :: b) := by
  unfold chompRun
  rw [takeWhile_eq_of_stop ha hc, dropWhile_eq_of_stop ha hc]
  simp [hlo, hhi]

theorem chompChar_eq_some {c : Char} {l r : List Char}
    (h : chompChar c l = some r) : l = c :: r := by
  cases l with
  | nil => exact Option.noConfusion h
  | cons d rest =>
    simp only [chompChar] at h
    split at h
    · rename_i hd
      injection h with h
      subst hd h
      rfl
    · exact Option.noConfusion h

theorem chompChar_cons (c : Char) (r : List Char) :
    chompChar c (c :: r) = some r := by simp [chompChar]

theorem chompExact_eq_some {p : Char → Bool} {n : Nat} {l a b : List Char}
    (h : chompExact p n l = some (a, b)) :
    l = a ++ b ∧ a.length = n ∧ (∀ c ∈ a, p c = true) := by
  unfold chompExact at h
  split at h
  · rename_i hcond
    obtain ⟨h1, h2⟩ := Prod.mk.injEq .. ▸ (Option.some.injEq .. ▸ h)
    subst h1; subst h2
    exact ⟨(List.take_append_drop n l).symm, hcond.1,
      fun c hc => (List.all_eq_true.mp hcond.2) c hc⟩
  · exact absurd h (by simp)

theorem chompExact_reconstruct {p : Char → Bool} {a : List Char} {n : Nat}
    (hn : a.length = n) (ha : ∀ c ∈ a, p c = true) (b : List Char) :
    chompExact p n (a ++ b) = some (a, b) := by
  unfold chompExact
  rw [List.take_left' hn, List.drop_left' hn]
  rw [if_pos ⟨hn, List.all_eq_true.mpr ha⟩]

theorem matchInvAt_some_iff {l m : List Char} :
    matchInvAt l = some m ↔
      ∃ ls ds y t r, InvShape ls ds y t ∧
        l = ls ++ '/' :: (ds ++ '/' :: (y ++ '-' :: (t ++ r))) ∧
        m = ls ++ '/' :: (ds ++ '/' :: (y ++ '-' :: t)) := by
  constructor
  · intro h
    unfold matchInvAt at h
    split at h
    · exact Option.noConfusion h
    rename_i ls r1 h1
    split at h
    · exact Option.noConfusion h
    rename_i r2 h2
    split at h
    · exact Option.noConfusion h
    rename_i ds r3 h3
    split at h
    · exact Option.noConfusion h
    rename_i r4 h4
    split at h
    · exact Option.noConfusion h
    rename_i y r5 h5
    split at h
    · exact Option.noConfusion h
    rename_i r6 h6
    split at h
    · exact Option.noConfusion h
    rename_i t r7 h7
    injection h with h
    obtain ⟨hl1, hup, hlo1, hhi1⟩ := chompRun_eq_some h1
    have hr1 := chompChar_eq_some h2
    obtain ⟨hl2, hdig, hlo2, _⟩ := chompRun_eq_some h3
    have hr3 := chompChar_eq_some h4
    obtain ⟨hl4, hy4, hydig⟩ := chompExact_eq_some h5
    have hr5 := chompChar_eq_some h6
    obtain ⟨hl6, ht2, htdig⟩ := chompExact_eq_some h7
    refine ⟨ls, ds, y, t, r7, ⟨hup, hlo1, hhi1, hdig, hlo2, hy4, hydig,
      ht2, htdig⟩, ?_, h.symm⟩
    subst hl1 hr1 hl2 hr3 hl4 hr5 hl6
    rfl
  · rintro ⟨ls, ds, y, t, r, ⟨hup, hlo1, hhi1, hdig, hlo2, hy4, hydig,
      ht2, htdig⟩, hl, hm⟩
    subst hl hm
    have e1 := chompRun_reconstruct hup
      (show upperA '/' = false by decide)
      (ds ++ '/' :: (y ++ '-' :: (t ++ r))) hlo1 hhi1
    have e2 := chompRun_reconstruct hdig
      (show digitA '/' = false by decide)
      (y ++ '-' :: (t ++ r)) hlo2
      (show ds.length ≤ (ds ++ '/' :: (y ++ '-' :: (t ++ r))).length by
        simp [List.length_append])
    have e3 := chompExact_reconstruct hy4 hydig ('-' :: (t ++ r))
    have e4 := chompExact_reconstruct ht2 htdig r
    simp only [matchInvAt, e1, chompChar_cons, e2, e3, e4]

/-- A successful match of the pattern is itself a full match of the
pattern (no proper extension is needed). -/
theorem matchInvAt_self {l m : List Char} (h : matchInvAt l = some m) :
    matchInvAt m = some m := by
  obtain ⟨ls, ds, y, t, r, hs, _, hm⟩ := matchInvAt_some_iff.mp h
  exact matchInvAt_some_iff.mpr ⟨ls, ds, y, t, [], hs, by simp [hm], hm⟩

/-- Extending the text to the right preserves a match at a position. -/
theorem matchInvAt_append {l m : List Char} (h : matchInvAt l = some m)
    (x : List Char) : matchInvAt (l ++ x) = some m := by
  obtain ⟨ls, ds, y, t, r, hs, hl, hm⟩ := matchInvAt_some_iff.mp h
  exact matchInvAt_some_iff.mpr ⟨ls, ds, y, t, r ++ x, hs, by simp [hl], hm⟩

theorem scanInv_self {l m : List Char} (h : scanInv l = some m) :
    matchInvAt m = some m := by
  induction l with
  | nil => exact Option.noConfusion h
  | cons c rest ih =>
    simp only [scanInv] at h
    split at h
    · rename_i m0 hma
      injection h with h
      subst h
      exact matchInvAt_self hma
    · exact ih h

theorem scanInv_append_right {l : List Char} (h : (scanInv l).isSome = true)
    (x : List Char) : (scanInv (l ++ x)).isSome = true := by
  induction l with
  | nil => exact absurd h (by simp [scanInv])
  | cons c rest ih =>
    simp only [scanInv] at h
    split at h
    · rename_i m0 hma
      have hx := matchInvAt_append hma x
      simp only [List.cons_append] at hx
      simp [scanInv, List.cons_append, hx]
    · rename_i hma
      cases hmb : matchInvAt (c :: (rest ++ x)) with
      | some m1 => simp [scanInv, List.cons_append, hmb]
      | none => simpa [scanInv, List.cons_append, hmb] using ih h

theorem scanInv_append_left {x : List Char} (h : (scanInv x).isSome = true)
    (a : List Char) : (scanInv (a ++ x)).isSome = true := by
  induction a with
  | nil => simpa using h
  | cons c rest ih =>
    cases hmb : matchInvAt (c :: (rest ++ x)) with
    | some m1 => simp [scanInv, List.cons_append, hmb]
    | none => simpa [scanInv, List.cons_append, hmb] using ih

/-- Occurrence of the pattern in an infix lifts to the whole text. -/
theorem scanInv_infix {a t b : List Char} (h : (scanInv t).isSome = true) :
    (scanInv (a ++ t ++ b)).isSome = true := by
  have h1 := scanInv_append_right h b
  have h2 := scanInv_append_left h1 a
  simpa [List.append_assoc] using h2

/-- `trimL l` is an infix of `l`. -/
theorem trimL_infix (l : List Char) : ∃ a b, l = a ++ trimL l ++ b := by
  refine ⟨l.takeWhile wsp, ((l.dropWhile wsp).reverse.takeWhile wsp).reverse, ?_⟩
  have h2 : l.dropWhile wsp =
      ((l.dropWhile wsp).reverse.dropWhile wsp).reverse ++
        ((l.dropWhile wsp).reverse.takeWhile wsp).reverse := by
    calc l.dropWhile wsp = (l.dropWhile wsp).reverse.reverse :=
          (List.reverse_reverse _).symm
      _ = ((l.dropWhile wsp).reverse.takeWhile wsp ++
            (l.dropWhile wsp).reverse.dropWhile wsp).reverse := by
          rw [List.takeWhile_append_dropWhile]
      _ = _ := by rw [List.reverse_append]
  rw [List.append_assoc]
  unfold trimL
  rw [← h2]
  exact (List.takeWhile_append_dropWhile wsp l).symm

/-! ### `extractInvoiceNumber` (PQEntryForm)

```js
const cleanText = text.trim();
const invoiceMatch = cleanText.match(/([A-Z]{2,4}\/\d+\/\d{4}-\d{2})/);
if (invoiceMatch) return invoiceMatch[1];
const dateIndicators = ['DT:', 'DATE:', 'dt:', 'date:', ' DT', ' DATE'];
for (const indicator of dateIndicators) {
  const index = cleanText.indexOf(indicator);
  if (index > 0) return cleanText.substring(0, index).trim();
}
return cleanText;
```
-/

def dateIndicators : List String := ["DT:", "DATE:", "dt:", "date:", " DT", " DATE"]

/-- The date-indicator loop of `extractInvoiceNumber`: the first indicator
found at a positive index cuts the text there (then trims). -/
def stripDateLoop (clean : List Char) : List String → Option (List Char)
  | [] => none
  | ind :: rest =>
    match idxOfL ind.toList clean with
    | some i =>
      if 0 < i then some (trimL (clean.take i)) else stripDateLoop clean rest
    | none => stripDateLoop clean rest

/-- Model of `extractInvoiceNumber` from `PQEntryForm.tsx`. -/
def extractInvoiceNumber (text : String) : String :=
  match scanInv (trimL text.toList) with
  | some m => String.mk m
  | none =>
    match stripDateLoop (trimL text.toList) dateIndicators with
    | some r => String.mk r
    | none => String.mk (trimL text.toList)

theorem toList_mk (l : List Char) : (String.mk l).toList = l := rfl

theorem stripDateLoop_infix {clean r : List Char} {inds : List String}
    (h : stripDateLoop clean inds = some r) : ∃ a b, clean = a ++ r ++ b := by
  induction inds with
  | nil => exact Option.noConfusion h
  | cons ind rest ih =>
    simp only [stripDateLoop] at h
    split at h
    · rename_i i hidx
      split at h
      · injection h with h
        subst h
        obtain ⟨a, b, hab⟩ := trimL_infix (clean.take i)
        exact ⟨a, b ++ clean.drop i, by
          conv_lhs => rw [← List.take_append_drop i clean]
          conv_lhs => rw [hab]
          simp [List.append_assoc]⟩
      · exact ih h
    · exact ih h

/-- The key invariant behind every `invoice_number` assignment: whenever
the caller guard `cleanInvoiceNumber.match(/[A-Z]{2,4}\/\d+\/\d{4}-\d{2}/)`
accepts the cleaned value, that value is in its entirety one instance of
the invoice pattern. -/
theorem extractInvoiceNumber_full (s : String)
    (h : containsInv (extractInvoiceNumber s) = true) :
    fullInvMatch (extractInvoiceNumber s) = true := by
  unfold extractInvoiceNumber at h ⊢
  cases hscan : scanInv (trimL s.toList) with
  | some m =>
    rw [hscan] at h
    have hm := scanInv_self hscan
    simp [fullInvMatch, toList_mk, hm]
  | none =>
    rw [hscan] at h
    cases hstrip : stripDateLoop (trimL s.toList) dateIndicators with
    | some r =>
      rw [hstrip] at h
      obtain ⟨a, b, hab⟩ := stripDateLoop_infix hstrip
      have hr : (scanInv r).isSome = true := h
      have hall := scanInv_infix (a := a) (b := b) hr
      rw [← hab, hscan] at hall
      simp at hall
    | none =>
      rw [hstrip] at h
      have hr : (scanInv (trimL s.toList)).isSome = true := h
      rw [hscan] at hr
      simp at hr

/-! ### The cell grid of `extractDataFromExcel` (PQEntryForm)

The sheet is read into `jsonData : any[][]`, and every non-empty cell is
put into `cellMap` keyed by its address, value trimmed, scanning rows
then columns.  All subsequent phases iterate `Object.entries(cellMap)`,
i.e. the same row-major insertion order. -/

structure Cell where
  value : String
  row : Nat
  col : Nat
deriving DecidableEq

/-- Non-empty cells of one sheet row, in column order, values trimmed. -/
def buildRow (r : Nat) (vals : List String) : List Cell :=
  vals.enum.filterMap fun p =>
    if trimL p.2.toList = [] then none
    else some ⟨String.mk (trimL p.2.toList), r, p.1⟩

/-- The `cellMap` entries in row-major insertion order. -/
def buildCells (grid : List (List String)) : List Cell :=
  (grid.enum.map fun p => buildRow p.1 p.2).flatten

/-- A `cellMap[address]` lookup by row and column. -/
def lookupCell (cells : List Cell) (r c : Nat) : Option Cell :=
  cells.find? fun cl => cl.row == r && cl.col == c

/-! #### Shipper phase -/

def shipGuard (v : String) : Bool :=
  decide (strLen v > 5) && !(containsSub (lowerS v) "consignee")

def shipOffsetLoop (cells : List Cell) (cl : Cell) : List Nat → Option String
  | [] => none
  | i :: rest =>
    match lookupCell cells (cl.row + i) cl.col with
    | some c2 =>
      if shipGuard c2.value then some c2.value else shipOffsetLoop cells cl rest
    | none => shipOffsetLoop cells cl rest

/-- Shipper extraction: the rows 1–3 below the first cell mentioning
"exporter" (the outer loop breaks after the first such cell). -/
def findShipper (cells : List Cell) : Option String :=
  match cells.find? (fun cl => containsSub (lowerS cl.value) "exporter") with
  | some cl => shipOffsetLoop cells cl [1, 2, 3]
  | none => none

/-! #### Buyer phase -/

def buyerGuard (v : String) : Bool :=
  decide (strLen v > 3) && !(containsSub (lowerS v) "consignee") &&
    !(containsSub (lowerS v) ":")

def buyerOffsetLoop (cells : List Cell) (cl : Cell) : List Nat → Option String
  | [] => none
  | i :: rest =>
    match lookupCell cells (cl.row + i) cl.col with
    | some c2 =>
      if buyerGuard c2.value then some c2.value else buyerOffsetLoop cells cl rest
    | none => buyerOffsetLoop cells cl rest

def findBuyerLabeled (cells : List Cell) : Option String :=
  match cells.find? (fun cl => containsSub (lowerS cl.value) "consignee") with
  | some cl => buyerOffsetLoop cells cl [0, 1, 2, 3]
  | none => none

def buyerFallbackGuard (v : String) : Bool :=
  decide (strLen v > 5) && !(containsSub (lowerS v) "invoice") &&
    !(containsSub (lowerS v) "date") && !(containsSub (lowerS v) "no.") &&
    !(containsSub (lowerS v) "ref")

def buyerFallbackLoop (cells : List Cell) : List Nat → Option String
  | [] => none
  | c :: rest =>
    match lookupCell cells 9 c with
    | some c2 =>
      if buyerFallbackGuard c2.value then some c2.value
      else buyerFallbackLoop cells rest
    | none => buyerFallbackLoop cells rest

/-- The M10:X10 fallback: row index 9, columns 12–23. -/
def buyerFallback (cells : List Cell) : Option String :=
  buyerFallbackLoop cells ((List.range 12).map fun i => 12 + i)

/-! #### Invoice-number phase -/

/-- One candidate value: clean it with `extractInvoiceNumber`, accept when
the cleaned value matches the invoice regex. -/
def invCandidate (s : String) : Option String :=
  if containsInv (extractInvoiceNumber s) then some (extractInvoiceNumber s)
  else none

def invRowLoop (cells : List Cell) (cl : Cell) : List Nat → Option String
  | [] => none
  | o :: rest =>
    match lookupCell cells cl.row (cl.col + o) with
    | some c2 =>
      match invCandidate c2.value with
      | some v => some v
      | none => invRowLoop cells cl rest
    | none => invRowLoop cells cl rest

def invColLoop (cells : List Cell) (cl : Cell) : List Nat → Option String
  | [] => none
  | o :: rest =>
    match lookupCell cells (cl.row + o) cl.col with
    | some c2 =>
      match invCandidate c2.value with
      | some v => some v
      | none => invColLoop cells cl rest
    | none => invColLoop cells cl rest

def isInvLabel (v : String) : Bool :=
  containsSub (lowerS v) "invoice" && !(containsSub (lowerS v) "proforma")

/-- Labeled invoice search: for each label cell, columns +1..+5 on the
same row, then rows +1..+3 in the same column; unlike the shipper and
buyer phases this keeps scanning further label cells until a value is
found. -/
def invLabelScan (cells : List Cell) : List Cell → Option String
  | [] => none
  | cl :: rest =>
    if isInvLabel cl.value then
      match invRowLoop cells cl [1, 2, 3, 4, 5] with
      | some v => some v
      | none =>
        match invColLoop cells cl [1, 2, 3] with
        | some v => some v
        | none => invLabelScan cells rest
    else invLabelScan cells rest

/-- The M4+ fallback area: rows 3–10, columns 12–20, row-major. -/
def invAreaCells : List (Nat × Nat) :=
  ((List.range 8).map fun r => (List.range 9).map fun c => (3 + r, 12 + c)).flatten

def invFallbackLoop (cells : List Cell) : List (Nat × Nat) → Option String
  | [] => none
  | rc :: rest =>
    match lookupCell cells rc.1 rc.2 with
    | some c2 =>
      match invCandidate c2.value with
      | some v => some v
      | none => invFallbackLoop cells rest
    | none => invFallbackLoop cells rest

/-! #### Commodity phase -/

def commodityKeywords : List String :=
  ["chillies", "turmeric", "rice", "spices", "jaggery", "onions", "sannam"]

def findCommodity : List Cell → Option String
  | [] => none
  | cl :: rest =>
    if commodityKeywords.any (fun k => containsSub (lowerS cl.value) k) then
      some cl.value
    else findCommodity rest

/-! #### Destination phase -/

def isDestLabel (v : String) : Bool :=
  containsSub (lowerS v) "final destination" ||
    containsSub (lowerS v) "country of final destination" ||
    containsSub (lowerS v) "destination country"

def destGuard (v : String) : Bool :=
  decide (strLen v > 2) && !(containsSub (lowerS v) "destination") &&
    !(containsSub (lowerS v) "country") && !(containsSub (lowerS v) "origin")

def cleanDestination (v : String) : String :=
  if containsSub (upperCaseS v) "SRI LANKA" || containsSub (upperCaseS v) "SRILANKA" then
    "SRI LANKA"
  else if containsSub (upperCaseS v) "COLOMBO" then "SRI LANKA"
  else upperCaseS v

def destAdjLoop (cells : List Cell) (cl : Cell) : List Nat → Option String
  | [] => none
  | o :: rest =>
    match lookupCell cells cl.row (cl.col + o) with
    | some c2 =>
      if destGuard c2.value then some (cleanDestination c2.value)
      else destAdjLoop cells cl rest
    | none => destAdjLoop cells cl rest

def destBelow (cells : List Cell) (cl : Cell) : Option String :=
  match lookupCell cells (cl.row + 1) cl.col with
  | some c2 =>
    if destGuard c2.value then some (cleanDestination c2.value) else none
  | none => none

def destLabelScan (cells : List Cell) : List Cell → Option String
  | [] => none
  | cl :: rest =>
    if isDestLabel cl.value then
      match destAdjLoop cells cl [1, 2, 3, 4, 5] with
      | some v => some v
      | none =>
        match destBelow cells cl with
        | some v => some v
        | none => destLabelScan cells rest
    else destLabelScan cells rest

def destinationCountries : List String :=
  ["sri lanka", "srilanka", "bangladesh", "nepal", "pakistan", "myanmar", "maldives"]

/-- The fallback country search.  Its guard in the source reads the
misspelled property `extractedData.destinationPort` — the record type
`Partial<Pick<PQRecord, ...>>` only declares `destination_port` — which
is always `undefined`, so the loop runs even when the labeled search has
already assigned `destination_port` (the `cur` argument here); it can
then overwrite `cur` at the first cell that does not mention
origin/goods, and it stops after that cell whenever a value is present. -/
def destFallback (cur : Option String) : List Cell → Option String
  | [] => cur
  | cl :: rest =>
    if containsSub (lowerS cl.value) "origin" ||
        containsSub (lowerS cl.value) "goods" ||
        containsSub (lowerS cl.value) "country of origin" then
      destFallback cur rest
    else
      match destinationCountries.find? (fun k => containsSub (lowerS cl.value) k) with
      | some k =>
        some (if containsSub (lowerS cl.value) "sri lanka" ||
                  containsSub (lowerS cl.value) "srilanka" then "SRI LANKA"
              else upperCaseS k)
      | none => if cur.isSome then cur else destFallback cur rest

/-! #### The whole extractor -/

/-- The fields `extractDataFromExcel` can write into `extractedData`. -/
structure ExtractedData where
  shipper_name : Option String
  buyer : Option String
  invoice_number : Option String
  commodity : Option String
  destination_port : Option String
deriving DecidableEq

/-- Model of `extractDataFromExcel` (PQEntryForm.tsx): the value of
`extractedData` after all phases have run on the cell grid. -/
def extractDataFromExcel (grid : List (List String)) : ExtractedData :=
  { shipper_name := findShipper (buildCells grid)
    buyer :=
      match findBuyerLabeled (buildCells grid) with
      | some b => some b
      | none => buyerFallback (buildCells grid)
    invoice_number :=
      match invLabelScan (buildCells grid) (buildCells grid) with
      | some v => some v
      | none => invFallbackLoop (buildCells grid) invAreaCells
    commodity := findCommodity (buildCells grid)
    destination_port :=
      destFallback (destLabelScan (buildCells grid) (buildCells grid))
        (buildCells grid) }

/-- `Object.keys(extractedData)` in assignment order. -/
def fieldKeys (d : ExtractedData) : List String :=
  (if d.shipper_name.isSome then ["shipper_name"] else []) ++
    (if d.buyer.isSome then ["buyer"] else []) ++
    (if d.invoice_number.isSome then ["invoice_number"] else []) ++
    (if d.commodity.isSome then ["commodity"] else []) ++
    (if d.destination_port.isSome then ["destination_port"] else [])

/-- The `errors.file` message is set exactly in the
`Object.keys(extractedData).length > 0` else-branch: only when no field
at all was extracted. -/
def extractionErrorSet (d : ExtractedData) : Bool := (fieldKeys d).length == 0

/-! ### Records and the RecordsView filtering pipeline -/

/-- `PQRecord` from `types.ts` (the `files: any` field carries no string
data and never matches the string-typed search, so it is omitted). -/
structure PQRecord where
  id : String
  date : String
  shipper_name : String
  buyer : String
  invoice_number : String
  commodity : String
  shipping_bill_received : Bool
  pq_status : String
  pq_hardcopy : String
  permit_copy_status : String
  destination_port : String
  remarks : String
  created_at : String
  updated_at : String
deriving DecidableEq

/-- A runtime JS value, as needed for the `===` comparisons of
`matchesFilters` (the shipping-bill filter compares a string against a
boolean field). -/
inductive JSVal where
  | str (s : String)
  | bool (b : Bool)
deriving DecidableEq

/-- JS strict equality `===`: false across distinct runtime types. -/
def jsStrictEq : JSVal → JSVal → Bool
  | .str a, .str b => a == b
  | .bool a, .bool b => a == b
  | _, _ => false

/-- `Object.values(record)` restricted to its string-typed members (the
search predicate first checks `typeof value === 'string'`). -/
def stringValues (r : PQRecord) : List String :=
  [r.id, r.date, r.shipper_name, r.buyer, r.invoice_number, r.commodity,
    r.pq_status, r.pq_hardcopy, r.permit_copy_status, r.destination_port,
    r.remarks, r.created_at, r.updated_at]

/-- `matchesSearch` of `filteredAndSortedRecords`. -/
def matchesSearch (term : String) (r : PQRecord) : Bool :=
  term == "" ||
    (stringValues r).any fun v => containsSub (lowerS v) (lowerS term)

/-- The filter entries the RecordsView UI actually sets.  The select for
the shipping bill stores the raw option string `'Yes'` / `'No'` (the
declared `FilterOptions` type says `boolean`, but the `onChange` handler
assigns `e.target.value || undefined`). -/
structure Filters where
  pq_status : Option String
  pq_hardcopy : Option String
  shipper_name : Option String
  shipping_bill_received : Option String
deriving DecidableEq

def emptyFilters : Filters := ⟨none, none, none, none⟩

/-- One `Object.entries(filters)` step: absent → no constraint, falsy
(empty string) → no constraint, otherwise `record[key] === value`. -/
def filterEntry (v : Option String) (field : JSVal) : Bool :=
  match v with
  | none => true
  | some s => if s == "" then true else jsStrictEq field (JSVal.str s)

/-- `matchesFilters` of `filteredAndSortedRecords`. -/
def matchesFilters (f : Filters) (r : PQRecord) : Bool :=
  filterEntry f.pq_status (.str r.pq_status) &&
    filterEntry f.pq_hardcopy (.str r.pq_hardcopy) &&
    filterEntry f.shipper_name (.str r.shipper_name) &&
    filterEntry f.shipping_bill_received (.bool r.shipping_bill_received)

/-- The `dateRange` state; `stop` models the `end` field. -/
structure DateRange where
  start : String
  stop : String
deriving DecidableEq

/-- `matchesDateRange`: JS `>=` / `<=` on date strings is lexicographic
comparison. -/
def matchesDateRange (dr : DateRange) (r : PQRecord) : Bool :=
  (dr.start == "" || !(decide (r.date < dr.start))) &&
    (dr.stop == "" || !(decide (dr.stop < r.date)))

/-- `isRecordCompleted` (RecordsView): the complete scenario is
Shipping Bill = Yes, PQ Status = Received, Permit = Received or
Not Required.  The pending/received section predicates and the
dashboard-style counts inline the identical expression. -/
def isRecordCompleted (r : PQRecord) : Bool :=
  r.shipping_bill_received && r.pq_status == "Received" &&
    (r.permit_copy_status == "Received" || r.permit_copy_status == "Not Required")

inductive ViewSection where
  | all
  | pending
  | received
  | hardcopyMissing
deriving DecidableEq

/-- `matchesSection` of `filteredAndSortedRecords`. -/
def matchesSection (sec : ViewSection) (r : PQRecord) : Bool :=
  match sec with
  | .all => true
  | .pending => !(isRecordCompleted r)
  | .received => isRecordCompleted r
  | .hardcopyMissing =>
    (if r.pq_hardcopy == "" then "Not Received" else r.pq_hardcopy) == "Not Received"

/-- The view state consumed by `filteredAndSortedRecords` (the sort key
and direction are abstracted into the comparator argument below). -/
structure ViewState where
  searchTerm : String
  filters : Filters
  dateRange : DateRange
  activeSection : ViewSection
deriving DecidableEq

def matchesAll (st : ViewState) (r : PQRecord) : Bool :=
  matchesSearch st.searchTerm r && matchesFilters st.filters r &&
    matchesDateRange st.dateRange r && matchesSection st.activeSection r

/-- `Array.prototype.sort` modelled as an insertion sort on a boolean
comparator (`cmp a b = true` iff `a` is placed no later than `b`); the
concrete comparator value depends on `sortBy` / `sortOrder` /
`localeCompare`, which only affect the order, never membership. -/
def insertCmp (cmp : PQRecord → PQRecord → Bool) (x : PQRecord) :
    List PQRecord → List PQRecord
  | [] => [x]
  | y :: ys => if cmp x y then x :: y :: ys else y :: insertCmp cmp x ys

def sortByCmp (cmp : PQRecord → PQRecord → Bool) : List PQRecord → List PQRecord
  | [] => []
  | x :: xs => insertCmp cmp x (sortByCmp cmp xs)

/-- `filteredAndSortedRecords`: filter by search, filters, date range and
active section, then sort. -/
def filteredAndSortedRecords (cmp : PQRecord → PQRecord → Bool)
    (st : ViewState) (records : List PQRecord) : List PQRecord :=
  sortByCmp cmp (records.filter (matchesAll st))

/-- The argument of the Export Excel button:
`onClick={() => exportToExcel(filteredAndSortedRecords)}`. -/
def exportToExcelArg (cmp : PQRecord → PQRecord → Bool) (st : ViewState)
    (records : List PQRecord) : List PQRecord :=
  filteredAndSortedRecords cmp st records

/-- The argument of the Export PDF button:
`onClick={() => exportToPDF(filteredAndSortedRecords)}`. -/
def exportToPDFArg (cmp : PQRecord → PQRecord → Bool) (st : ViewState)
    (records : List PQRecord) : List PQRecord :=
  filteredAndSortedRecords cmp st records

/-- `pendingCount` (RecordsView): records whose complete scenario does
not hold, over the whole record list. -/
def pendingCount (records : List PQRecord) : Nat :=
  (records.filter fun r => !(isRecordCompleted r)).length

/-- `receivedCount` (RecordsView): records whose complete scenario holds,
over the whole record list. -/
def receivedCount (records : List PQRecord) : Nat :=
  (records.filter isRecordCompleted).length

/-! ### The storage client (`storage.ts`) -/

/-- Model of JS `parseInt(value, 10)`: optional leading whitespace, an
optional sign, then a maximal digit run; `NaN` is modelled as `none`. -/
def jsParseInt (s : String) : Option Int :=
  let l := s.toList.dropWhile wsp
  let signed : Int × List Char :=
    match l with
    | '-' :: r => (-1, r)
    | '+' :: r => (1, r)
    | _ => (1, l)
  let ds := signed.2.takeWhile digitA
  if ds.isEmpty then none
  else some (signed.1 * (ds.foldl (fun acc c => acc * 10 + (c.toNat - '0'.toNat)) 0 : Nat))

/-- `ensureNumber` (storage.ts): the helper applied to
`record.invoice_number` in both `savePQRecord` and `updatePQRecord`
before it is written to the `invoice_number` column.  On the string
values produced by the form it is `parseInt(value, 10)`. -/
def ensureNumber (value : String) : Option Int := jsParseInt value

/-- The value placed in the `invoice_number` column of the
`insert` / `update` payload for a record. -/
def savedInvoiceColumn (r : PQRecord) : Option Int := ensureNumber r.invoice_number

/-! ### Form submission (`handleSubmit` in PQEntryForm) -/

/-- The form state fields that participate in validation and in the
record that is saved. -/
structure FormData where
  date : String
  shipper_name : String
  buyer : String
  invoice_number : String
  commodity : String
  shipping_bill_received : Bool
  pq_status : String
  pq_hardcopy : String
  permit_copy_status : String
  destination_port : String
  remarks : String
deriving DecidableEq

/-- The per-field test of `handleSubmit`:
`!formData.x || !formData.x.trim()`. -/
def fieldMissing (s : String) : Bool := s == "" || trimS s == ""

/-- The keys of `newErrors` set by `handleSubmit`, in assignment order. -/
def validationErrors (fd : FormData) : List String :=
  (if fieldMissing fd.shipper_name then ["shipper_name"] else []) ++
    (if fieldMissing fd.buyer then ["buyer"] else []) ++
    (if fieldMissing fd.invoice_number then ["invoice_number"] else []) ++
    (if fieldMissing fd.commodity then ["commodity"] else []) ++
    (if fieldMissing fd.destination_port then ["destination_port"] else [])

/-- The record built by `handleSubmit` after validation passes. -/
def mkSubmitRecord (fd : FormData) (editId : Option String) (newId : String)
    (editCreatedAt nowDate : String) : PQRecord :=
  { id := editId.getD newId
    date := fd.date
    shipper_name := trimS fd.shipper_name
    buyer := trimS fd.buyer
    invoice_number := trimS fd.invoice_number
    commodity := trimS fd.commodity
    shipping_bill_received := fd.shipping_bill_received
    pq_status := fd.pq_status
    pq_hardcopy := fd.pq_hardcopy
    permit_copy_status := fd.permit_copy_status
    destination_port := trimS fd.destination_port
    remarks := trimS fd.remarks
    created_at := match editId with | some _ => editCreatedAt | none => nowDate
    updated_at := nowDate }

inductive StorageCall where
  | save (r : PQRecord)
  | update (id : String) (r : PQRecord)
deriving DecidableEq

/-- The storage call `handleSubmit` makes: none when validation found any
error (`if (Object.keys(newErrors).length > 0) { ...; return; }`),
otherwise `updatePQRecord` when editing and `savePQRecord` when not. -/
def submitCall (fd : FormData) (editId : Option String) (newId : String)
    (editCreatedAt nowDate : String) : Option StorageCall :=
  if (validationErrors fd).length == 0 then
    some (match editId with
      | some i => .update i (mkSubmitRecord fd editId newId editCreatedAt nowDate)
      | none => .save (mkSubmitRecord fd editId newId editCreatedAt nowDate))
  else none

/-- Effect of a storage call on the stored record list. -/
def applyCall (stored : List PQRecord) : StorageCall → List PQRecord
  | .save r => stored ++ [r]
  | .update i r => stored.map fun x => if x.id == i then r else x

/-- The stored records after one `handleSubmit`. -/
def applySubmit (stored : List PQRecord) (fd : FormData)
    (editId : Option String) (newId : String) (editCreatedAt nowDate : String) :
    List PQRecord :=
  match submitCall fd editId newId editCreatedAt nowDate with
  | none => stored
  | some c => applyCall stored c

/-! ### `isDelayed` (dateHelpers.ts) -/

/-- Model of `isDelayed(createdAt, status)`; `now` stands for
`Date.now()` and both times are epoch milliseconds.  The elapsed-hours
quotient is computed in `ℚ` (the JS numbers carry out this division
exactly enough that the `> 48` comparison agrees with the rational one). -/
def isDelayed (now createdAt : Int) (status : String) : Bool :=
  if status != "Pending" then false
  else decide ((((now - createdAt : Int) : ℚ) / (1000 * 60 * 60)) > 48)

/-- `getHoursElapsed` floor of elapsed hours (for completeness). -/
def getHoursElapsed (now createdAt : Int) : Int :=
  (now - createdAt) / (1000 * 60 * 60)

/-! ## Claim theorems -/

/-! ### C1: every assigned invoice number is exactly one pattern instance -/

theorem invCandidate_full {s v : String} (h : invCandidate s = some v) :
    fullInvMatch v = true := by
  unfold invCandidate at h
  split at h
  · rename_i hc
    injection h with h
    subst h
    exact extractInvoiceNumber_full s hc
  · exact Option.noConfusion h

theorem invRowLoop_full {cells : List Cell} {cl : Cell} {os : List Nat}
    {v : String} (h : invRowLoop cells cl os = some v) : fullInvMatch v = true := by
  induction os with
  | nil => exact Option.noConfusion h
  | cons o rest ih =>
    simp only [invRowLoop] at h
    split at h
    · rename_i c2 hc2
      split at h
      · rename_i v0 hv
        injection h with h
        subst h
        exact invCandidate_full hv
      · exact ih h
    · exact ih h

theorem invColLoop_full {cells : List Cell} {cl : Cell} {os : List Nat}
    {v : String} (h : invColLoop cells cl os = some v) : fullInvMatch v = true := by
  induction os with
  | nil => exact Option.noConfusion h
  | cons o rest ih =>
    simp only [invColLoop] at h
    split at h
    · rename_i c2 hc2
      split at h
      · rename_i v0 hv
        injection h with h
        subst h
        exact invCandidate_full hv
      · exact ih h
    · exact ih h

theorem invFallbackLoop_full {cells : List Cell} {area : List (Nat × Nat)}
    {v : String} (h : invFallbackLoop cells area = some v) :
    fullInvMatch v = true := by
  induction area with
  | nil => exact Option.noConfusion h
  | cons rc rest ih =>
    simp only [invFallbackLoop] at h
    split at h
    · rename_i c2 hc2
      split at h
      · rename_i v0 hv
        injection h with h
        subst h
        exact invCandidate_full hv
      · exact ih h
    · exact ih h

theorem invLabelScan_full {cells l : List Cell} {v : String}
    (h : invLabelScan cells l = some v) : fullInvMatch v = true := by
  induction l with
  | nil => exact Option.noConfusion h
  | cons cl rest ih =>
    simp only [invLabelScan] at h
    split at h
    · split at h
      · rename_i v0 hv
        injection h with h
        subst h
        exact invRowLoop_full hv
      · split at h
        · rename_i v0 hv
          injection h with h
          subst h
          exact invColLoop_full hv
        · exact ih h
    · exact ih h

/-- Claim C1: for every uploaded cell grid, whenever
`extractDataFromExcel` sets `invoice_number`, the assigned value is
exactly one instance of the pattern `[A-Z]{2,4}/\d+/\d{4}-\d{2}` (so any
trailing date text has been stripped by `extractInvoiceNumber`, and a
value that nowhere contains the pattern is never assigned). -/
theorem c1_invoice_number_matches_pattern (grid : List (List String))
    (v : String) (h : (extractDataFromExcel grid).invoice_number = some v) :
    fullInvMatch v = true := by
  unfold extractDataFromExcel at h
  dsimp only at h
  split at h
  · rename_i v0 hv
    injection h with h
    subst h
    exact invLabelScan_full hv
  · exact invFallbackLoop_full h

/-- Witness for C1 at a concrete grid: the cell right of the
"Invoice No" label is extracted and is a full pattern instance. -/
theorem c1_witness :
    (extractDataFromExcel [["Invoice No", "ABC/123/2024-25"]]).invoice_number =
      some "ABC/123/2024-25" ∧
    fullInvMatch "ABC/123/2024-25" = true :=
  ⟨rfl, c1_invoice_number_matches_pattern [["Invoice No", "ABC/123/2024-25"]]
    "ABC/123/2024-25" rfl⟩

/-! ### C2: the destination fallback can overwrite the labeled result -/

def gridC2 : List (List String) :=
  [["to bangladesh"], ["final destination", "MALDIVES"]]

/-- Claim C2 (violated by the code; evaluation at the failing input):
the labeled-region search assigns `destination_port = "MALDIVES"`, but
because the fallback guard reads the misspelled `destinationPort`
property the fallback country scan still runs and reassigns the field to
`"BANGLADESH"`, so an assigned field is not stable under later scan
phases as the claim states. -/
theorem c2_eval :
    destLabelScan (buildCells gridC2) (buildCells gridC2) = some "MALDIVES" ∧
    (extractDataFromExcel gridC2).destination_port = some "BANGLADESH" :=
  ⟨rfl, rfl⟩

/-! ### C3: commodity is auto-populated too -/

/-- Claim C3 counterexample: a grid from which the extractor fills the
`commodity` form field, although the claim says no field beyond the four
labeled-region ones is ever filled. -/
theorem c3_counterexample :
    (extractDataFromExcel [["sannam chillies"]]).commodity =
      some "sannam chillies" := rfl

theorem findCommodity_keyword {cells : List Cell} {v : String}
    (h : findCommodity cells = some v) :
    commodityKeywords.any (fun k => containsSub (lowerS v) k) = true := by
  induction cells with
  | nil => exact Option.noConfusion h
  | cons cl rest ih =>
    simp only [findCommodity] at h
    split at h
    · rename_i hk
      injection h with h
      subst h
      exact hk
    · exact ih h

/-- Claim C3 amended: the extractor can auto-populate exactly the five
fields of `ExtractedData` — `shipper_name`, `buyer`, `invoice_number`,
`commodity` and `destination_port`; `commodity` is filled not from a
labeled region but from a fixed keyword list, and only with a cell value
containing one of those keywords. -/
theorem c3_commodity_from_keywords (grid : List (List String)) (v : String)
    (h : (extractDataFromExcel grid).commodity = some v) :
    commodityKeywords.any (fun k => containsSub (lowerS v) k) = true :=
  findCommodity_keyword h

/-- Witness for C3 at a concrete grid. -/
theorem c3_witness :
    (extractDataFromExcel [["turmeric powder"]]).commodity =
      some "turmeric powder" ∧
    commodityKeywords.any
      (fun k => containsSub (lowerS "turmeric powder") k) = true :=
  ⟨rfl, c3_commodity_from_keywords [["turmeric powder"]] "turmeric powder" rfl⟩

/-! ### C4: missing fields are not reported -/

/-- Claim C4 counterexample: a partial extraction (commodity found,
shipper and the rest missing) neither sets the file error nor mentions
any missing field — only the found field appears in the reported keys. -/
theorem c4_counterexample :
    (extractDataFromExcel [["Red chillies"]]).shipper_name = none ∧
    (extractDataFromExcel [["Red chillies"]]).invoice_number = none ∧
    extractionErrorSet (extractDataFromExcel [["Red chillies"]]) = false ∧
    fieldKeys (extractDataFromExcel [["Red chillies"]]) = ["commodity"] :=
  ⟨rfl, rfl, rfl, rfl⟩

theorem errorSet_iff (d : ExtractedData) :
    extractionErrorSet d = true ↔
      d.shipper_name = none ∧ d.buyer = none ∧ d.invoice_number = none ∧
        d.commodity = none ∧ d.destination_port = none := by
  obtain ⟨s, b, i, c, p⟩ := d
  cases s <;> cases b <;> cases i <;> cases c <;> cases p <;>
    simp [extractionErrorSet, fieldKeys]

/-- Claim C4 amended: the only failure report is all-or-nothing — the
file error is set exactly when no field at all was extracted; a partial
extraction reports the found fields (`fieldKeys`) and never the missing
ones. -/
theorem c4_error_iff_nothing_extracted (grid : List (List String)) :
    extractionErrorSet (extractDataFromExcel grid) = true ↔
      (extractDataFromExcel grid).shipper_name = none ∧
      (extractDataFromExcel grid).buyer = none ∧
      (extractDataFromExcel grid).invoice_number = none ∧
      (extractDataFromExcel grid).commodity = none ∧
      (extractDataFromExcel grid).destination_port = none :=
  errorSet_iff (extractDataFromExcel grid)

/-! ### C5: exports receive the filtered and sorted view -/

theorem mem_insertCmp {cmp : PQRecord → PQRecord → Bool} {x a : PQRecord}
    {l : List PQRecord} : a ∈ insertCmp cmp x l ↔ a = x ∨ a ∈ l := by
  induction l with
  | nil => simp [insertCmp]
  | cons y ys ih =>
    simp only [insertCmp]
    split
    · simp
    · rw [List.mem_cons, ih, List.mem_cons]
      tauto

theorem mem_sortByCmp {cmp : PQRecord → PQRecord → Bool} {a : PQRecord}
    {l : List PQRecord} : a ∈ sortByCmp cmp l ↔ a ∈ l := by
  induction l with
  | nil => simp [sortByCmp]
  | cons x xs ih => simp [sortByCmp, mem_insertCmp, ih]

/-- Claim C5: both export buttons pass exactly
`filteredAndSortedRecords` — the filtered view, not the full record
set — and membership in that list is precisely "is a record and matches
all active criteria". -/
theorem c5_exports_use_filtered_view (cmp : PQRecord → PQRecord → Bool)
    (st : ViewState) (records : List PQRecord) :
    exportToExcelArg cmp st records = filteredAndSortedRecords cmp st records ∧
    exportToPDFArg cmp st records = filteredAndSortedRecords cmp st records ∧
    ∀ r, r ∈ exportToExcelArg cmp st records ↔
      r ∈ records ∧ matchesAll st r = true := by
  refine ⟨rfl, rfl, fun r => ?_⟩
  unfold exportToExcelArg filteredAndSortedRecords
  rw [mem_sortByCmp, List.mem_filter]

/-! ### C6: the shipping-bill filter never matches -/

def sampleRecordYes : PQRecord :=
  { id := "r1", date := "2025-07-01", shipper_name := "Acme Exports"
    buyer := "Lanka Traders", invoice_number := "ABC/1/2025-26"
    commodity := "Turmeric", shipping_bill_received := true
    pq_status := "Pending", pq_hardcopy := "Not Received"
    permit_copy_status := "Not Required", destination_port := "SRI LANKA"
    remarks := "", created_at := "2025-07-01", updated_at := "2025-07-01" }

def sampleRecordNo : PQRecord :=
  { sampleRecordYes with id := "r2", shipping_bill_received := false }

def stateBillYes : ViewState :=
  ⟨"", ⟨none, none, none, some "Yes"⟩, ⟨"", ""⟩, ViewSection.all⟩

def stateBillNo : ViewState :=
  ⟨"", ⟨none, none, none, some "No"⟩, ⟨"", ""⟩, ViewSection.all⟩

/-- Claim C6 (violated by the code; evaluation at the failing input):
with the shipping-bill filter at 'Yes' a record with
`shipping_bill_received = true` is not selected (the stored option
string is `===`-compared against the boolean field, which is always
false), and symmetrically for 'No'; the filtered view is empty instead
of containing exactly the matching records. -/
theorem c6_eval :
    sampleRecordYes.shipping_bill_received = true ∧
    filteredAndSortedRecords (fun _ _ => true) stateBillYes [sampleRecordYes] = [] ∧
    sampleRecordNo.shipping_bill_received = false ∧
    filteredAndSortedRecords (fun _ _ => true) stateBillNo [sampleRecordNo] = [] :=
  ⟨rfl, rfl, rfl, rfl⟩

/-! ### C7: the stored invoice number is not a pass-through -/

def rtcRecord : PQRecord :=
  { sampleRecordYes with id := "r3", invoice_number := "RTC/037/2025-26" }

/-- Claim C7 (violated by the code; evaluation at the failing input):
`savePQRecord` / `updatePQRecord` put `ensureNumber(record.invoice_number)`
— i.e. `parseInt(value, 10)` — into the `invoice_number` column, so
"RTC/037/2025-26" is stored as `NaN` (modelled `none`), not unchanged;
even a digit-leading value like "037/2025-26" is truncated to the number
37. -/
theorem c7_eval :
    rtcRecord.invoice_number = "RTC/037/2025-26" ∧
    savedInvoiceColumn rtcRecord = none ∧
    ensureNumber "037/2025-26" = some 37 :=
  ⟨rfl, rfl, rfl⟩

/-! ### C8: submission is gated by validation -/

theorem trimS_empty : trimS "" = "" := rfl

theorem fieldMissing_iff (s : String) : fieldMissing s = true ↔ trimS s = "" := by
  unfold fieldMissing
  constructor
  · intro h
    rcases Bool.or_eq_true_iff.mp h with h1 | h1
    · have hs : s = "" := by simpa using h1
      rw [hs]
      rfl
    · simpa using h1
  · intro h
    simp [h]

/-- Claim C8: `handleSubmit` makes a storage call iff all five required
fields are non-empty after trimming; otherwise no call is made, the
stored records are unchanged, and the per-field errors are set exactly
for the trim-empty fields. -/
theorem c8_submission_gating (fd : FormData) (editId : Option String)
    (newId editCreatedAt nowDate : String) (stored : List PQRecord) :
    ((submitCall fd editId newId editCreatedAt nowDate).isSome = true ↔
      (trimS fd.shipper_name ≠ "" ∧ trimS fd.buyer ≠ "" ∧
        trimS fd.invoice_number ≠ "" ∧ trimS fd.commodity ≠ "" ∧
        trimS fd.destination_port ≠ "")) ∧
    (validationErrors fd = [] ∨
      (submitCall fd editId newId editCreatedAt nowDate = none ∧
        applySubmit stored fd editId newId editCreatedAt nowDate = stored)) ∧
    ("shipper_name" ∈ validationErrors fd ↔ trimS fd.shipper_name = "") ∧
    ("buyer" ∈ validationErrors fd ↔ trimS fd.buyer = "") ∧
    ("invoice_number" ∈ validationErrors fd ↔ trimS fd.invoice_number = "") ∧
    ("commodity" ∈ validationErrors fd ↔ trimS fd.commodity = "") ∧
    ("destination_port" ∈ validationErrors fd ↔ trimS fd.destination_port = "") := by
  have e1 := fieldMissing_iff fd.shipper_name
  have e2 := fieldMissing_iff fd.buyer
  have e3 := fieldMissing_iff fd.invoice_number
  have e4 := fieldMissing_iff fd.commodity
  have e5 := fieldMissing_iff fd.destination_port
  cases h1 : fieldMissing fd.shipper_name <;>
    cases h2 : fieldMissing fd.buyer <;>
    cases h3 : fieldMissing fd.invoice_number <;>
    cases h4 : fieldMissing fd.commodity <;>
    cases h5 : fieldMissing fd.destination_port <;>
    simp_all [submitCall, applySubmit, validationErrors, applyCall]

/-! ### C9: pending and received partition the record set -/

theorem length_filter_not_add (p : PQRecord → Bool) (l : List PQRecord) :
    (l.filter fun r => !(p r)).length + (l.filter p).length = l.length := by
  induction l with
  | nil => rfl
  | cons a l ih => cases hpa : p a <;> simp [List.filter_cons, hpa] <;> omega

/-- Claim C9: every record is counted in exactly one of `pendingCount`
and `receivedCount` (their sum is the total), a record counts as
received exactly under the complete scenario (shipping bill received,
PQ status Received, permit Received or Not Required), and the 'pending'
and 'received' section filters select exactly these two complementary
sets. -/
theorem c9_sections_partition (records : List PQRecord) :
    pendingCount records + receivedCount records = records.length ∧
    (∀ r, matchesSection ViewSection.received r = isRecordCompleted r) ∧
    (∀ r, matchesSection ViewSection.pending r = !(isRecordCompleted r)) ∧
    (∀ r, isRecordCompleted r =
      (r.shipping_bill_received && r.pq_status == "Received" &&
        (r.permit_copy_status == "Received" ||
          r.permit_copy_status == "Not Required"))) :=
  ⟨length_filter_not_add _ _, fun _ => rfl, fun _ => rfl, fun _ => rfl⟩

/-! ### C10: isDelayed -/

/-- Claim C10: `isDelayed` returns true iff the status is exactly
"Pending" and strictly more than 48 hours (in milliseconds) have elapsed
since `createdAt`; any other status gives false regardless of the
elapsed time. -/
theorem c10_isDelayed_iff (now createdAt : Int) (status : String) :
    isDelayed now createdAt status = true ↔
      status = "Pending" ∧ 48 * (1000 * 60 * 60) < now - createdAt := by
  unfold isDelayed
  by_cases hs : status = "Pending"
  · subst hs
    have h0 : (0 : ℚ) < 1000 * 60 * 60 := by norm_num
    have key : (48 : ℚ) < ((now : ℚ) - (createdAt : ℚ)) / (1000 * 60 * 60) ↔
        (172800000 : Int) < now - createdAt := by
      rw [lt_div_iff₀ h0]
      norm_num
      constructor
      · intro h
        exact_mod_cast h
      · intro h
        exact_mod_cast h
    simp [key]
  · have hb : (status != "Pending") = true := by simp [bne_iff_ne, hs]
    simp [hb, hs]

end PQTracker
